/-
Verification of the interest-rate-derivatives pricing library.

The Python sources are shallowly embedded in Lean:
- machine floats are modelled by real numbers; where the code can produce
  the IEEE special values nan / +inf / -inf (through np.log, division, ...)
  we use the four-valued type FpVal which tracks them explicitly;
- the numpy seeded random generator is modelled by an explicit stream state
  (N -> R) together with a seeding function (seed -> stream);
- objects whose fields are reassigned in place (the rate model inside the
  hedging simulator) are modelled by explicit state passing;
- injected capabilities (rate model, swap pricer, hedging strategy,
  instrument) are modelled as record-of-functions parameters, mirroring the
  duck-typed attributes of the source.
-/
import Mathlib

open MeasureTheory

/-- Cumulative distribution function of the standard normal law, the model of
scipy.stats.norm.cdf on finite inputs. -/
noncomputable def normCdf (x : ℝ) : ℝ :=
  (∫ t in Set.Iic x, Real.exp (-(t ^ 2 / 2))) / Real.sqrt (2 * Real.pi)

theorem gaussian_integrand_eq :
    (fun t : ℝ => Real.exp (-(t ^ 2 / 2))) = fun t : ℝ => Real.exp (-(1 / 2 : ℝ) * t ^ 2) := by
  funext t
  ring_nf

theorem gaussian_integrable : Integrable (fun t : ℝ => Real.exp (-(t ^ 2 / 2))) := by
  rw [gaussian_integrand_eq]
  exact integrable_exp_neg_mul_sq (by norm_num)

/-- Symmetry of the standard normal distribution function. -/
theorem normCdf_neg (x : ℝ) : normCdf (-x) = 1 - normCdf x := by
  have hint : Integrable (fun t : ℝ => Real.exp (-(t ^ 2 / 2))) := gaussian_integrable
  have heven : (∫ t in Set.Iic (-x), Real.exp (-(t ^ 2 / 2)))
      = ∫ t in Set.Ioi x, Real.exp (-(t ^ 2 / 2)) := by
    have h1 : (∫ t in Set.Iic (-x), Real.exp (-((-t) ^ 2 / 2)))
        = ∫ t in Set.Ioi (- -x), Real.exp (-(t ^ 2 / 2)) :=
      integral_comp_neg_Iic (-x) (fun t => Real.exp (-(t ^ 2 / 2)))
    simpa using h1
  have hsplit : (∫ t in Set.Iic x, Real.exp (-(t ^ 2 / 2)))
      + (∫ t in Set.Ioi x, Real.exp (-(t ^ 2 / 2)))
      = ∫ t : ℝ, Real.exp (-(t ^ 2 / 2)) :=
    intervalIntegral.integral_Iic_add_Ioi hint.integrableOn hint.integrableOn
  have htotal : (∫ t : ℝ, Real.exp (-(t ^ 2 / 2))) = Real.sqrt (2 * Real.pi) := by
    rw [gaussian_integrand_eq]
    rw [integral_gaussian]
    rw [show Real.pi / (1 / 2) = 2 * Real.pi by ring]
  have hpos : (0 : ℝ) < Real.sqrt (2 * Real.pi) := by
    apply Real.sqrt_pos.mpr
    positivity
  have hkey : (∫ t in Set.Ioi x, Real.exp (-(t ^ 2 / 2)))
      = Real.sqrt (2 * Real.pi) - ∫ t in Set.Iic x, Real.exp (-(t ^ 2 / 2)) := by
    linarith [hsplit, htotal]
  unfold normCdf
  rw [heven, hkey, sub_div, div_self hpos.ne.symm]

/-- Model of a Python/numpy double: either a finite real or one of the IEEE
special values nan, +inf, -inf. -/
inductive FpVal where
  | nan : FpVal
  | pinf : FpVal
  | ninf : FpVal
  | fin : ℝ → FpVal

/-- IEEE addition on the float model. -/
noncomputable def FpVal.add : FpVal → FpVal → FpVal
  | .nan, _ => .nan
  | _, .nan => .nan
  | .pinf, .ninf => .nan
  | .ninf, .pinf => .nan
  | .pinf, _ => .pinf
  | _, .pinf => .pinf
  | .ninf, _ => .ninf
  | _, .ninf => .ninf
  | .fin a, .fin b => .fin (a + b)

/-- IEEE negation on the float model. -/
noncomputable def FpVal.neg : FpVal → FpVal
  | .nan => .nan
  | .pinf => .ninf
  | .ninf => .pinf
  | .fin a => .fin (-a)

/-- IEEE subtraction on the float model. -/
noncomputable def FpVal.sub (a b : FpVal) : FpVal :=
  FpVal.add a (FpVal.neg b)

/-- IEEE multiplication on the float model (infinity times zero is nan). -/
noncomputable def FpVal.mul : FpVal → FpVal → FpVal
  | .nan, _ => .nan
  | _, .nan => .nan
  | .pinf, .pinf => .pinf
  | .pinf, .ninf => .ninf
  | .ninf, .pinf => .ninf
  | .ninf, .ninf => .pinf
  | .pinf, .fin b => if b = 0 then .nan else if 0 < b then .pinf else .ninf
  | .fin a, .pinf => if a = 0 then .nan else if 0 < a then .pinf else .ninf
  | .ninf, .fin b => if b = 0 then .nan else if 0 < b then .ninf else .pinf
  | .fin a, .ninf => if a = 0 then .nan else if 0 < a then .ninf else .pinf
  | .fin a, .fin b => .fin (a * b)

/-- IEEE division on the float model (zero over zero is nan, nonzero over
zero is a signed infinity as in numpy). -/
noncomputable def FpVal.div : FpVal → FpVal → FpVal
  | .nan, _ => .nan
  | _, .nan => .nan
  | .pinf, .pinf => .nan
  | .pinf, .ninf => .nan
  | .ninf, .pinf => .nan
  | .ninf, .ninf => .nan
  | .pinf, .fin b => if 0 ≤ b then .pinf else .ninf
  | .ninf, .fin b => if 0 ≤ b then .ninf else .pinf
  | .fin _, .pinf => .fin 0
  | .fin _, .ninf => .fin 0
  | .fin a, .fin b =>
    if b = 0 then (if a = 0 then .nan else if 0 < a then .pinf else .ninf)
    else .fin (a / b)

/-- Model of np.log on the float model: negative arguments give nan, zero
gives -inf. -/
noncomputable def FpVal.log : FpVal → FpVal
  | .nan => .nan
  | .pinf => .pinf
  | .ninf => .nan
  | .fin a => if a < 0 then .nan else if a = 0 then .ninf else .fin (Real.log a)

/-- Model of scipy.stats.norm.cdf on the float model. -/
noncomputable def FpVal.cdf : FpVal → FpVal
  | .nan => .nan
  | .pinf => .fin 1
  | .ninf => .fin 0
  | .fin a => .fin (normCdf a)

theorem FpVal.add_fin (a b : ℝ) : FpVal.add (.fin a) (.fin b) = .fin (a + b) := rfl

theorem FpVal.sub_fin (a b : ℝ) : FpVal.sub (.fin a) (.fin b) = .fin (a + -b) := rfl

theorem FpVal.mul_fin (a b : ℝ) : FpVal.mul (.fin a) (.fin b) = .fin (a * b) := rfl

theorem FpVal.add_nan_left (b : FpVal) : FpVal.add .nan b = .nan := by
  cases b <;> rfl

theorem FpVal.mul_fin_nan (a : ℝ) : FpVal.mul (.fin a) .nan = .nan := rfl

theorem FpVal.cdf_nan : FpVal.cdf .nan = .nan := rfl

theorem FpVal.cdf_fin (a : ℝ) : FpVal.cdf (.fin a) = .fin (normCdf a) := rfl

theorem FpVal.sub_nan_left (b : FpVal) : FpVal.sub .nan b = .nan := by
  cases b <;> rfl

theorem FpVal.div_nan_left (b : FpVal) : FpVal.div .nan b = .nan := by
  cases b <;> rfl

theorem FpVal.div_fin_of_ne (a b : ℝ) (hb : b ≠ 0) :
    FpVal.div (.fin a) (.fin b) = .fin (a / b) := by
  simp [FpVal.div, hb]

theorem FpVal.log_fin_of_neg (a : ℝ) (ha : a < 0) : FpVal.log (.fin a) = .nan := by
  simp [FpVal.log, ha]

theorem FpVal.log_fin_of_pos (a : ℝ) (ha : 0 < a) :
    FpVal.log (.fin a) = .fin (Real.log a) := by
  simp [FpVal.log, not_lt.mpr ha.le, ha.ne.symm]

/-- Embedding of CapFloorPricer.black_price_caplet
(src/models/derivatives/option_pricing.py, lines 23-48). -/
noncomputable def blackPriceCaplet (forwardRate strike timeToMaturity volatility
    discountFactor notional deltaT : ℝ) : FpVal :=
  if timeToMaturity ≤ 0 then
    .fin (max 0 (forwardRate - strike) * discountFactor * notional * deltaT)
  else
    let d1 := FpVal.div
      (FpVal.add (FpVal.log (FpVal.div (.fin forwardRate) (.fin strike)))
        (.fin (volatility ^ 2 / 2 * timeToMaturity)))
      (.fin (volatility * Real.sqrt timeToMaturity))
    let d2 := FpVal.sub d1 (.fin (volatility * Real.sqrt timeToMaturity))
    FpVal.mul (.fin (discountFactor * notional * deltaT))
      (FpVal.sub (FpVal.mul (.fin forwardRate) (FpVal.cdf d1))
        (FpVal.mul (.fin strike) (FpVal.cdf d2)))

/-- Embedding of CapFloorPricer.black_price_floorlet
(src/models/derivatives/option_pricing.py, lines 50-75). -/
noncomputable def blackPriceFloorlet (forwardRate strike timeToMaturity volatility
    discountFactor notional deltaT : ℝ) : FpVal :=
  if timeToMaturity ≤ 0 then
    .fin (max 0 (strike - forwardRate) * discountFactor * notional * deltaT)
  else
    let d1 := FpVal.div
      (FpVal.add (FpVal.log (FpVal.div (.fin forwardRate) (.fin strike)))
        (.fin (volatility ^ 2 / 2 * timeToMaturity)))
      (.fin (volatility * Real.sqrt timeToMaturity))
    let d2 := FpVal.sub d1 (.fin (volatility * Real.sqrt timeToMaturity))
    FpVal.mul (.fin (discountFactor * notional * deltaT))
      (FpVal.sub (FpVal.mul (.fin strike) (FpVal.cdf (FpVal.neg d2)))
        (FpVal.mul (.fin forwardRate) (FpVal.cdf (FpVal.neg d1))))

/-- Embedding of SwaptionPricer.black_price
(src/models/derivatives/option_pricing.py, lines 221-254). -/
noncomputable def blackPriceSwaption (forwardSwapRate strike swapAnnuity timeToExpiry
    volatility : ℝ) (isPayer : Bool) : FpVal :=
  if timeToExpiry ≤ 0 then
    if isPayer then .fin (max 0 (forwardSwapRate - strike) * swapAnnuity)
    else .fin (max 0 (strike - forwardSwapRate) * swapAnnuity)
  else
    let d1 := FpVal.div
      (FpVal.add (FpVal.log (FpVal.div (.fin forwardSwapRate) (.fin strike)))
        (.fin (volatility ^ 2 / 2 * timeToExpiry)))
      (.fin (volatility * Real.sqrt timeToExpiry))
    let d2 := FpVal.sub d1 (.fin (volatility * Real.sqrt timeToExpiry))
    if isPayer then
      FpVal.mul (.fin swapAnnuity)
        (FpVal.sub (FpVal.mul (.fin forwardSwapRate) (FpVal.cdf d1))
          (FpVal.mul (.fin strike) (FpVal.cdf d2)))
    else
      FpVal.mul (.fin swapAnnuity)
        (FpVal.sub (FpVal.mul (.fin strike) (FpVal.cdf (FpVal.neg d2)))
          (FpVal.mul (.fin forwardSwapRate) (FpVal.cdf (FpVal.neg d1))))

/-- C1: with positive time to maturity and a negative forward rate, all three
Black-formula routines run to completion and return nan (the logarithm of a
negative quotient), instead of raising the domain error the specification
demands.  The embeddings are total functions because the source methods
contain no validation and no raise statement. -/
theorem black_formulas_return_nan_on_negative_forward
    (F K tau vol DF N dT A : ℝ) (payer : Bool)
    (htau : 0 < tau) (hF : F < 0) (hK : 0 < K) :
    blackPriceCaplet F K tau vol DF N dT = .nan ∧
    blackPriceFloorlet F K tau vol DF N dT = .nan ∧
    blackPriceSwaption F K A tau vol payer = .nan := by
  have hdiv : FpVal.div (.fin F) (.fin K) = .fin (F / K) :=
    FpVal.div_fin_of_ne F K hK.ne.symm
  have hquot : F / K < 0 := div_neg_of_neg_of_pos hF hK
  have hlog : FpVal.log (FpVal.div (.fin F) (.fin K)) = .nan := by
    rw [hdiv]
    exact FpVal.log_fin_of_neg _ hquot
  refine ⟨?_, ?_, ?_⟩
  · rw [blackPriceCaplet, if_neg (not_le.mpr htau)]
    simp only [hlog]
    rfl
  · rw [blackPriceFloorlet, if_neg (not_le.mpr htau)]
    simp only [hlog]
    rfl
  · rw [blackPriceSwaption, if_neg (not_le.mpr htau)]
    simp only [hlog]
    cases payer <;> rfl

/-- Witness for C1 at a concrete invalid input: forward rate -1/100,
strike 1/20, one year to maturity. -/
theorem black_formulas_return_nan_witness :
    (0 : ℝ) < 1 ∧ (-1 / 100 : ℝ) < 0 ∧ (0 : ℝ) < 1 / 20 ∧
    blackPriceCaplet (-1 / 100) (1 / 20) 1 (1 / 5) 1 1 (1 / 2) = .nan :=
  ⟨by norm_num, by norm_num, by norm_num,
    (black_formulas_return_nan_on_negative_forward (-1 / 100) (1 / 20) 1 (1 / 5) 1 1 (1 / 2)
      1 true (by norm_num) (by norm_num) (by norm_num)).1⟩

/-- Parameters and discretization of the CIR short-rate model
(src/models/interest_rate/cir.py together with the base-class fields).
The base class InterestRateModel is not under src/; following the spec
(section 3), it stores r0, the parameters, timesteps, time_horizon and
dt = time_horizon / timesteps.  dt is a stored field, set at construction. -/
structure CIRModel where
  r0 : ℝ
  kappa : ℝ
  theta : ℝ
  sigma : ℝ
  timesteps : ℕ
  timeHorizon : ℝ
  dt : ℝ

/-- Embedding of CIR.zero_coupon_bond_price
(src/models/interest_rate/cir.py, lines 80-114). -/
noncomputable def CIRModel.zeroCouponBondPrice (m : CIRModel) (t T r : ℝ) : ℝ :=
  if t ≥ T then 1
  else
    let h := Real.sqrt (m.kappa ^ 2 + 2 * m.sigma ^ 2)
    let tau := T - t
    let aNum := 2 * h * Real.exp ((m.kappa + h) * tau / 2)
    let aDenom := 2 * h + (m.kappa + h) * (Real.exp (h * tau) - 1)
    let A := (aNum / aDenom) ^ (2 * m.kappa * m.theta / m.sigma ^ 2)
    let bNum := 2 * (Real.exp (h * tau) - 1)
    let bDenom := 2 * h + (m.kappa + h) * (Real.exp (h * tau) - 1)
    let B := bNum / bDenom
    A * Real.exp (-B * r)

/-- Written from the specification text of C3: the canonical A(tau)exp(-B(tau) r)
closed form with h = sqrt(kappa^2 + 2 sigma^2), tau = T - t, and 1.0 whenever
t >= T. -/
noncomputable def zeroCouponBondPriceSpec (kappa theta sigma t T r : ℝ) : ℝ :=
  if t ≥ T then 1
  else
    let h := Real.sqrt (kappa ^ 2 + 2 * sigma ^ 2)
    let tau := T - t
    let A := (2 * h * Real.exp ((kappa + h) * tau / 2)
        / (2 * h + (kappa + h) * (Real.exp (h * tau) - 1))) ^ (2 * kappa * theta / sigma ^ 2)
    let B := 2 * (Real.exp (h * tau) - 1)
        / (2 * h + (kappa + h) * (Real.exp (h * tau) - 1))
    A * Real.exp (-B * r)

/-- C3: CIR.zero_coupon_bond_price returns 1 for t >= T and otherwise the
canonical CIR closed form stated in the specification, for every rate and
every parameter set. -/
theorem zeroCouponBondPrice_matches_spec (m : CIRModel) (t T r : ℝ) :
    m.zeroCouponBondPrice t T r
      = zeroCouponBondPriceSpec m.kappa m.theta m.sigma t T r := rfl

/-- Error kinds for the explicit validation failures of the pricers
(the source raises ValueError with a French message). -/
inductive PricingError where
  | expiryBeforeSwapStart : PricingError

/-- Capability interface of the injected rate model, as consumed by the
cap/floor and swaption pricers (duck-typed attributes in the source). -/
structure RateModelCap where
  r0 : ℝ
  zeroCouponBondPrice : ℝ → ℝ → ℝ → ℝ
  forwardRate : ℝ → ℝ → ℝ → ℝ → ℝ

/-- Capability interface of the injected swap pricer: par_rate(start, end, freq). -/
structure SwapPricerCap where
  parRate : ℝ → ℝ → ℝ → ℝ

/-- Model of np.arange(start, stop, step) for a positive step: the values
start + i * step for i < ceil((stop - start) / step). -/
noncomputable def npArange (start stop step : ℝ) : List ℝ :=
  (List.range (⌈(stop - start) / step⌉.toNat)).map (fun i => start + i * step)

/-- Embedding of the body of SwaptionPricer.price after its validation check
(src/models/derivatives/option_pricing.py, lines 279-317). -/
noncomputable def swaptionPriceBody (rateModel : RateModelCap) (swapPricer : SwapPricerCap)
    (valuationDate expiryDate underlyingSwapStart underlyingSwapEnd strike
      paymentFrequency notional : ℝ) (volatility : Option ℝ) (isPayer : Bool) : FpVal :=
  let currentRate := rateModel.r0
  let timeToExpiry := max 0 (expiryDate - valuationDate)
  let forwardSwapRate := swapPricer.parRate underlyingSwapStart underlyingSwapEnd paymentFrequency
  let paymentDates := npArange (underlyingSwapStart + paymentFrequency)
    (underlyingSwapEnd + 1e-10) paymentFrequency
  let swapAnnuity := (paymentDates.map (fun d =>
    paymentFrequency * rateModel.zeroCouponBondPrice valuationDate d currentRate * notional)).sum
  let vol := volatility.getD 0.2
  blackPriceSwaption forwardSwapRate strike swapAnnuity timeToExpiry vol isPayer

/-- Embedding of SwaptionPricer.price
(src/models/derivatives/option_pricing.py, lines 256-317): the only raise is
the ValueError on expiry_date < underlying_swap_start. -/
noncomputable def swaptionPrice (rateModel : RateModelCap) (swapPricer : SwapPricerCap)
    (valuationDate expiryDate underlyingSwapStart underlyingSwapEnd strike
      paymentFrequency notional : ℝ) (volatility : Option ℝ) (isPayer : Bool) :
    Except PricingError FpVal :=
  if expiryDate < underlyingSwapStart then .error .expiryBeforeSwapStart
  else .ok (swaptionPriceBody rateModel swapPricer valuationDate expiryDate
    underlyingSwapStart underlyingSwapEnd strike paymentFrequency notional volatility isPayer)

/-- Trivial concrete rate model used to instantiate the duck-typed pricers. -/
noncomputable def constRateModel : RateModelCap :=
  ⟨3 / 100, fun _ _ _ => 1, fun _ _ _ _ => 5 / 100⟩

/-- Trivial concrete swap pricer with a constant par rate. -/
noncomputable def constSwapPricer : SwapPricerCap :=
  ⟨fun _ _ _ => 5 / 100⟩

/-- Counterexample to C2: with expiry_date = 2 strictly greater than
underlying_swap_start = 1 (so expiry differs from the swap start), the call
does not fail validation; it proceeds to the Black valuation and succeeds. -/
theorem swaptionPrice_mismatch_succeeds :
    swaptionPrice constRateModel constSwapPricer 0 2 1 3 (4 / 100) (1 / 2) 1 none true
      = .ok (swaptionPriceBody constRateModel constSwapPricer 0 2 1 3 (4 / 100) (1 / 2) 1
          none true) := by
  rw [swaptionPrice, if_neg (by norm_num)]

/-- C2 (amended): SwaptionPricer.price raises exactly when
expiry_date < underlying_swap_start; whenever expiry_date >=
underlying_swap_start (including strictly greater) it reaches the Black
valuation and returns its value. -/
theorem swaptionPrice_validation (rateModel : RateModelCap) (swapPricer : SwapPricerCap)
    (valuationDate expiryDate underlyingSwapStart underlyingSwapEnd strike
      paymentFrequency notional : ℝ) (volatility : Option ℝ) (isPayer : Bool) :
    (swaptionPrice rateModel swapPricer valuationDate expiryDate underlyingSwapStart
        underlyingSwapEnd strike paymentFrequency notional volatility isPayer
      = .error .expiryBeforeSwapStart ↔ expiryDate < underlyingSwapStart) ∧
    (underlyingSwapStart ≤ expiryDate →
      swaptionPrice rateModel swapPricer valuationDate expiryDate underlyingSwapStart
          underlyingSwapEnd strike paymentFrequency notional volatility isPayer
        = .ok (swaptionPriceBody rateModel swapPricer valuationDate expiryDate
            underlyingSwapStart underlyingSwapEnd strike paymentFrequency notional
            volatility isPayer)) := by
  constructor
  · rw [swaptionPrice]
    split_ifs with h
    · simp [h]
    · simp [h]
  · intro hle
    rw [swaptionPrice, if_neg (not_lt.mpr hle)]

/-- Witness for C2 at a concrete input with equal expiry and swap start. -/
theorem swaptionPrice_validation_witness :
    (1 : ℝ) ≤ 1 ∧
    swaptionPrice constRateModel constSwapPricer 0 1 1 3 (4 / 100) (1 / 2) 1 none true
      = .ok (swaptionPriceBody constRateModel constSwapPricer 0 1 1 3 (4 / 100) (1 / 2) 1
          none true) :=
  ⟨le_refl 1,
    (swaptionPrice_validation constRateModel constSwapPricer 0 1 1 3 (4 / 100) (1 / 2) 1
      none true).2 (le_refl 1)⟩

/-- One Euler-with-reflection step of CIR.simulate_rates
(src/models/interest_rate/cir.py, lines 74-76): drift and diffusion are
computed on the previous value floored at zero and the result is floored at
zero again; dW is the normal increment drawn with standard deviation
sqrt(dt). -/
noncomputable def cirStep (m : CIRModel) (prev dW : ℝ) : ℝ :=
  let drift := m.kappa * (m.theta - max 0 prev) * m.dt
  let diffusion := m.sigma * Real.sqrt (max 0 prev * m.dt) * dW
  max 0 (prev + drift + diffusion)

/-- One simulated CIR trajectory: entry 0 is r0 (line 61), entry t+1 applies
the Euler-with-reflection step to entry t. -/
noncomputable def cirPath (m : CIRModel) (dW : ℕ → ℝ) : ℕ → ℝ
  | 0 => m.r0
  | t + 1 => cirStep m (cirPath m dW t) (dW (t + 1))

/-- Embedding of CIR.simulate_rates (src/models/interest_rate/cir.py, lines
40-78).  The numpy global random generator is modelled by a stream of standard
normal draws (the incoming state rng) plus the seeding map g sending a
seed to the stream np.random.seed produces; np.random.seed(seed) replaces the
ambient stream exactly when seed is not None.  Step t of path p consumes
stream element (t-1)*nPaths + p, matching the per-step vectorized draws, and
the returned state has consumed timesteps*nPaths draws. -/
noncomputable def CIRModel.simulateRates (m : CIRModel) (nPaths : ℕ) (seed : Option ℕ)
    (g : ℕ → ℕ → ℝ) (rng : ℕ → ℝ) : (ℕ → ℕ → ℝ) × (ℕ → ℝ) :=
  let stream := match seed with
    | some s => g s
    | none => rng
  let dW : ℕ → ℕ → ℝ := fun p t => Real.sqrt m.dt * stream ((t - 1) * nPaths + p)
  (fun p t => cirPath m (dW p) t, fun i => stream (i + m.timesteps * nPaths))

/-- C4: every entry of the matrix returned by simulate_rates is non-negative,
for every path, step, path count, seed and ambient random state, whenever the
model was constructed with a positive initial rate and the Feller condition. -/
theorem simulateRates_nonneg (m : CIRModel) (nPaths : ℕ) (seed : Option ℕ)
    (g : ℕ → ℕ → ℝ) (rng : ℕ → ℝ) (p t : ℕ)
    (hr0 : 0 < m.r0) (hfeller : m.sigma ^ 2 < 2 * m.kappa * m.theta)
    (hn : 1 ≤ nPaths) (hp : p < nPaths) (ht : t ≤ m.timesteps) :
    0 ≤ (m.simulateRates nPaths seed g rng).1 p t := by
  have hpath : ∀ dW : ℕ → ℝ, ∀ s : ℕ, 0 ≤ cirPath m dW s := by
    intro dW s
    cases s with
    | zero => exact hr0.le
    | succ n => exact le_max_left 0 _
  exact hpath _ t

/-- Witness for C4 on a concrete Feller-satisfying model. -/
theorem simulateRates_nonneg_witness :
    (0 : ℝ) < 3 / 100 ∧ ((1 / 100 : ℝ)) ^ 2 < 2 * (1 / 2) * (1 / 20) ∧
    0 ≤ ((CIRModel.mk (3 / 100) (1 / 2) (1 / 20) (1 / 100) 100 1
      (1 / 100)).simulateRates 1 (some 42) (fun _ _ => 0) (fun _ => 0)).1 0 0 :=
  ⟨by norm_num, by norm_num,
    simulateRates_nonneg (CIRModel.mk (3 / 100) (1 / 2) (1 / 20) (1 / 100) 100 1 (1 / 100))
      1 (some 42) (fun _ _ => 0) (fun _ => 0) 0 0 (by norm_num) (by norm_num)
      (le_refl 1) (by norm_num) (by norm_num)⟩

/-- C8: simulate_rates re-seeds the global generator whenever a seed is given,
so a second call with the same (seed, n_paths) arguments on the same model
returns the identical rate matrix, whatever random state the first call left
behind.  In particular two successive calls agree element for element. -/
theorem simulateRates_deterministic (m : CIRModel) (nPaths : ℕ) (s : ℕ)
    (g : ℕ → ℕ → ℝ) (rng : ℕ → ℝ) :
    (m.simulateRates nPaths (some s) g
        ((m.simulateRates nPaths (some s) g rng).2)).1
      = (m.simulateRates nPaths (some s) g rng).1 := rfl

/-- Retained coupon dates of BondPricer (src/arbitrage/bond_pricing.py,
lines 150-164): arange(valuation+frequency, maturity+1e-10, frequency),
replaced when valuation_date > 0 by the original schedule
arange(frequency, maturity+1e-10, frequency) filtered to dates strictly
after the valuation date. -/
noncomputable def retainedCouponDates (valuationDate maturity frequency : ℝ) : List ℝ :=
  let couponDates := npArange (valuationDate + frequency) (maturity + 1e-10) frequency
  if 0 < valuationDate then
    (npArange frequency (maturity + 1e-10) frequency).filter
      (fun d => decide (valuationDate < d))
  else couponDates

/-- Embedding of the inner price_difference function of
BondPricer.calculate_yield_to_maturity (src/arbitrage/bond_pricing.py,
lines 146-180): flat continuously-compounded discounting of every coupon and
the redemption, minus the observed price. -/
noncomputable def priceDifference (bondPrice maturity couponRate frequency notional
    valuationDate ytm : ℝ) : ℝ :=
  let couponDates := retainedCouponDates valuationDate maturity frequency
  let couponAmount := notional * couponRate * frequency
  (couponDates.map (fun d => couponAmount * Real.exp (-ytm * (d - valuationDate)))).sum
    + notional * Real.exp (-ytm * (maturity - valuationDate)) - bondPrice

/-- Embedding of the bisection loop of calculate_yield_to_maturity
(src/arbitrage/bond_pricing.py, lines 186-198): the fuel is the remaining
iteration budget; when it runs out the midpoint of the final bracket is
returned. -/
noncomputable def bisect (f : ℝ → ℝ) (precision : ℝ) : ℕ → ℝ → ℝ → ℝ
  | 0, lowRate, highRate => (lowRate + highRate) / 2
  | n + 1, lowRate, highRate =>
    let midRate := (lowRate + highRate) / 2
    if |f midRate| < precision then midRate
    else if f midRate * f lowRate < 0 then bisect f precision n lowRate midRate
    else bisect f precision n midRate highRate

/-- Embedding of BondPricer.calculate_yield_to_maturity
(src/arbitrage/bond_pricing.py, lines 125-198). -/
noncomputable def calculateYieldToMaturity (bondPrice maturity couponRate frequency
    notional valuationDate : ℝ) (maxIterations : ℕ) (precision : ℝ) : ℝ :=
  if maturity ≤ valuationDate then 0
  else bisect (priceDifference bondPrice maturity couponRate frequency notional valuationDate)
    precision maxIterations 0.0001 0.5

/-- Written from the specification text of C5: the flat-rate price function,
discounting every retained coupon and the redemption at the same flat rate. -/
noncomputable def flatPriceDifferenceSpec (bondPrice maturity couponRate frequency notional
    valuationDate ytm : ℝ) : ℝ :=
  ((retainedCouponDates valuationDate maturity frequency).map
    (fun d => notional * couponRate * frequency * Real.exp (-ytm * (d - valuationDate)))).sum
    + notional * Real.exp (-ytm * (maturity - valuationDate)) - bondPrice

/-- Written from the specification text of C5: at each iteration return mid
as soon as the price difference is within precision, move low to mid when
f(mid)*f(low) >= 0 and high to mid when f(mid)*f(low) < 0, and return the
midpoint of the bracket when the iteration budget is exhausted. -/
noncomputable def bisectSpec (f : ℝ → ℝ) (precision : ℝ) : ℕ → ℝ → ℝ → ℝ
  | 0, lowRate, highRate => (lowRate + highRate) / 2
  | n + 1, lowRate, highRate =>
    let midRate := (lowRate + highRate) / 2
    if |f midRate| < precision then midRate
    else if 0 ≤ f midRate * f lowRate then bisectSpec f precision n midRate highRate
    else bisectSpec f precision n lowRate midRate

theorem bisect_eq_bisectSpec (f : ℝ → ℝ) (precision : ℝ) :
    ∀ (n : ℕ) (lowRate highRate : ℝ),
      bisect f precision n lowRate highRate = bisectSpec f precision n lowRate highRate := by
  intro n
  induction n with
  | zero => intro lowRate highRate; rfl
  | succ k ih =>
    intro lowRate highRate
    rw [bisect, bisectSpec]
    by_cases h1 : |f ((lowRate + highRate) / 2)| < precision
    · simp only [h1, if_true]
    · simp only [h1, if_false]
      by_cases h2 : f ((lowRate + highRate) / 2) * f lowRate < 0
      · simp only [h2, if_true, not_le.mpr h2, if_false]
        exact ih lowRate ((lowRate + highRate) / 2)
      · simp only [h2, if_false, not_lt.mp h2, if_true]
        exact ih ((lowRate + highRate) / 2) highRate

/-- C5: for maturities after the valuation date, calculate_yield_to_maturity
performs exactly the bisection the specification describes, on the bracket
[0.0001, 0.5] against the flat-rate price function; the routine is a total
function (it never fails), returning the final midpoint when the iteration
budget is exhausted. -/
theorem calculateYieldToMaturity_matches_spec (bondPrice maturity couponRate frequency
    notional valuationDate : ℝ) (maxIterations : ℕ) (precision : ℝ)
    (h : valuationDate < maturity) :
    calculateYieldToMaturity bondPrice maturity couponRate frequency notional valuationDate
        maxIterations precision
      = bisectSpec (flatPriceDifferenceSpec bondPrice maturity couponRate frequency notional
          valuationDate) precision maxIterations 0.0001 0.5 := by
  have hfun : priceDifference bondPrice maturity couponRate frequency notional valuationDate
      = flatPriceDifferenceSpec bondPrice maturity couponRate frequency notional
          valuationDate := rfl
  rw [calculateYieldToMaturity, if_neg (not_le.mpr h), hfun]
  exact bisect_eq_bisectSpec _ precision maxIterations 0.0001 0.5

/-- Witness for C5 on a concrete bond. -/
theorem calculateYieldToMaturity_matches_spec_witness :
    (0 : ℝ) < 2 ∧
    calculateYieldToMaturity 100 2 (5 / 100) 1 100 0 100 (1e-8)
      = bisectSpec (flatPriceDifferenceSpec 100 2 (5 / 100) 1 100 0) (1e-8) 100 0.0001 0.5 :=
  ⟨by norm_num,
    calculateYieldToMaturity_matches_spec 100 2 (5 / 100) 1 100 0 100 (1e-8) (by norm_num)⟩

/-- HedgingSimulator configuration (src/hedging/simulation.py, lines 13-26).
The injected instrument prices off the mutated model rate (the pricer held by
the strategy aliases the same rate model), so it is modelled as a function of
the current short rate and the valuation date; the injected strategy computes
a hedge ratio from time and rate. -/
structure HedgingSimulator where
  rebalanceFrequency : ℝ
  instrumentPrice : ℝ → ℝ → ℝ
  computeHedgeRatio : ℝ → ℝ → ℝ

/-- Per-path per-step state of the hedging simulation: instrument value,
hedge ratio, hedge value, transaction cost charged this step, cumulative
P&L. -/
structure PathState where
  instVal : ℝ
  ratio : ℝ
  hedgeVal : ℝ
  cost : ℝ
  pnl : ℝ

/-- Rebalancing step indices (src/hedging/simulation.py, lines 58-65): walk
current_time from 0 by rebalance_frequency while it does not exceed the time
horizon, mapping each time to int(current_time / dt) and keeping indices at
most timesteps.  Models the while loop for a positive rebalance frequency
(a non-positive one would not terminate in the source). -/
noncomputable def rebalanceSteps (rebalanceFrequency dt timeHorizon : ℝ)
    (timesteps : ℕ) : List ℕ :=
  (List.range ((⌊timeHorizon / rebalanceFrequency⌋).toNat + 1)).filterMap (fun k =>
    if (k : ℝ) * rebalanceFrequency ≤ timeHorizon then
      if (⌊(k : ℝ) * rebalanceFrequency / dt⌋).toNat ≤ timesteps then
        some (⌊(k : ℝ) * rebalanceFrequency / dt⌋).toNat
      else none
    else none)

/-- One path of the hedging loop (src/hedging/simulation.py, lines 77-132).
Step 0 prices the instrument, takes the initial hedge ratio and zero P&L;
step t+1 reprices, values the hedge with the previous ratio, accrues the P&L
increment, and on a rebalancing step charges the transaction cost
|new - old| * 0.0001 * rate and updates the ratio. -/
noncomputable def hedgePath (sim : HedgingSimulator) (times ratesP : ℕ → ℝ)
    (rebal : List ℕ) : ℕ → PathState
  | 0 =>
    let ratio := sim.computeHedgeRatio (times 0) (ratesP 0)
    ⟨sim.instrumentPrice (ratesP 0) (times 0), ratio, ratio * ratesP 0, 0, 0⟩
  | t + 1 =>
    let prev := hedgePath sim times ratesP rebal t
    let iv := sim.instrumentPrice (ratesP (t + 1)) (times (t + 1))
    let hv := prev.ratio * ratesP (t + 1)
    let pnlT := (iv - prev.instVal) - (hv - prev.hedgeVal)
    if (t + 1) ∈ rebal then
      let newRatio := sim.computeHedgeRatio (times (t + 1)) (ratesP (t + 1))
      let transactionCost := |newRatio - prev.ratio| * 0.0001 * ratesP (t + 1)
      ⟨iv, newRatio, hv, transactionCost, prev.pnl + (pnlT - transactionCost)⟩
    else
      ⟨iv, prev.ratio, hv, 0, prev.pnl + pnlT⟩

/-- The arrays returned by HedgingSimulator.simulate
(src/hedging/simulation.py, lines 135-143), as functions of (path, step). -/
structure SimResults where
  times : ℕ → ℝ
  rates : ℕ → ℕ → ℝ
  instrumentValues : ℕ → ℕ → ℝ
  hedgeRatios : ℕ → ℕ → ℝ
  hedgeValues : ℕ → ℕ → ℝ
  hedgeCosts : ℕ → ℕ → ℝ
  pnl : ℕ → ℕ → ℝ

/-- Embedding of HedgingSimulator.simulate (src/hedging/simulation.py, lines
28-145) with the rate model passed and returned explicitly: the source
mutates the shared rate model in place (time_horizon, timesteps, and r0 at
every step of every path), so the returned model carries the final field
values. -/
noncomputable def HedgingSimulator.simulate (sim : HedgingSimulator) (model : CIRModel)
    (nPaths : ℕ) (timeHorizonArg : Option ℝ) (seed : Option ℕ)
    (g : ℕ → ℕ → ℝ) (rng : ℕ → ℝ) : SimResults × CIRModel × (ℕ → ℝ) :=
  let timeHorizon := timeHorizonArg.getD model.timeHorizon
  let model1 := if timeHorizon ≠ model.timeHorizon then
      { model with timeHorizon := timeHorizon,
                   timesteps := (⌊timeHorizon / model.dt⌋).toNat }
    else model
  let sr := model1.simulateRates nPaths seed g rng
  let rates := sr.1
  let timesteps := model1.timesteps
  let dt := model1.dt
  let times : ℕ → ℝ := fun t => timeHorizon * t / timesteps
  let rebal := rebalanceSteps sim.rebalanceFrequency dt timeHorizon timesteps
  let pathAt : ℕ → ℕ → PathState := fun p => hedgePath sim times (fun u => rates p u) rebal
  let finalR0 := (List.range nPaths).foldl
    (fun acc p => (List.range (timesteps + 1)).foldl (fun _ u => rates p u) acc) model1.r0
  (⟨times, rates,
    fun p t => (pathAt p t).instVal,
    fun p t => (pathAt p t).ratio,
    fun p t => (pathAt p t).hedgeVal,
    fun p t => (pathAt p t).cost,
    fun p t => (pathAt p t).pnl⟩,
   { model1 with r0 := finalR0 }, sr.2)

theorem foldl_const_range {α : Type} (f : ℕ → α) (n : ℕ) (a : α) :
    (List.range (n + 1)).foldl (fun _ x => f x) a = f n := by
  rw [List.range_succ, List.foldl_append]
  rfl

theorem foldl_rates_last (rates : ℕ → ℕ → ℝ) (k ts : ℕ) (a : ℝ) :
    (List.range (k + 1)).foldl
      (fun acc p => (List.range (ts + 1)).foldl (fun _ u => rates p u) acc) a
      = rates k ts := by
  have h1 : ∀ (p : ℕ) (acc : ℝ),
      (List.range (ts + 1)).foldl (fun _ u => rates p u) acc = rates p ts :=
    fun p acc => foldl_const_range (rates p) ts acc
  simp only [h1]
  exact foldl_const_range (fun p => rates p ts) k a

/-- C10: simulate mutates the shared rate model.  After a call with at least
one path and a time_horizon argument different from that of the model, the model
leaves the call with r0 equal to the last simulated rate of the last path and
with time_horizon and timesteps permanently overwritten to the new horizon
and int(new_horizon / dt); nothing restores them. -/
theorem simulate_mutates_model (sim : HedgingSimulator) (model : CIRModel)
    (nPaths : ℕ) (th : ℝ) (seed : Option ℕ) (g : ℕ → ℕ → ℝ) (rng : ℕ → ℝ)
    (hn : 1 ≤ nPaths) (hth : th ≠ model.timeHorizon) :
    (sim.simulate model nPaths (some th) seed g rng).2.1.r0
        = (sim.simulate model nPaths (some th) seed g rng).1.rates (nPaths - 1)
            ((sim.simulate model nPaths (some th) seed g rng).2.1.timesteps) ∧
    (sim.simulate model nPaths (some th) seed g rng).2.1.timeHorizon = th ∧
    (sim.simulate model nPaths (some th) seed g rng).2.1.timesteps
        = (⌊th / model.dt⌋).toNat := by
  obtain ⟨k, rfl⟩ : ∃ k, nPaths = k + 1 :=
    ⟨nPaths - 1, (Nat.succ_pred_eq_of_pos hn).symm⟩
  simp only [HedgingSimulator.simulate, Option.getD_some]
  rw [if_pos hth]
  refine ⟨?_, rfl, rfl⟩
  simp only [Nat.add_sub_cancel]
  exact foldl_rates_last _ k _ _

/-- Concrete CIR model used in witnesses: r0=0.03, kappa=0.5, theta=0.05,
sigma=0.01, 2 timesteps over a one-year horizon, dt = 1/2. -/
noncomputable def wModel : CIRModel :=
  CIRModel.mk (3 / 100) (1 / 2) (1 / 20) (1 / 100) 2 1 (1 / 2)

/-- Concrete hedging simulator used in witnesses: rebalance every 2 years,
instrument priced at the current rate, hedge ratio equal to the rate. -/
noncomputable def wSim : HedgingSimulator :=
  HedgingSimulator.mk 2 (fun r _ => r) (fun _ r => r)

/-- Witness for C10 at a concrete call changing the horizon from 1 to 2. -/
theorem simulate_mutates_model_witness :
    1 ≤ 1 ∧ (2 : ℝ) ≠ wModel.timeHorizon ∧
    ((wSim.simulate wModel 1 (some 2) none (fun _ _ => 0) (fun _ => 0)).2.1.r0
        = (wSim.simulate wModel 1 (some 2) none (fun _ _ => 0) (fun _ => 0)).1.rates 0
            ((wSim.simulate wModel 1 (some 2) none (fun _ _ => 0) (fun _ => 0)).2.1.timesteps) ∧
      (wSim.simulate wModel 1 (some 2) none (fun _ _ => 0) (fun _ => 0)).2.1.timeHorizon = 2 ∧
      (wSim.simulate wModel 1 (some 2) none (fun _ _ => 0) (fun _ => 0)).2.1.timesteps
        = (⌊(2 : ℝ) / wModel.dt⌋).toNat) :=
  ⟨le_refl 1, by norm_num [wModel],
    simulate_mutates_model wSim wModel 1 2 none (fun _ _ => 0) (fun _ => 0)
      (le_refl 1) (by norm_num [wModel])⟩

theorem rebalanceSteps_of_lt (rf dt th : ℝ) (ts : ℕ) (hth : 0 ≤ th) (hlt : th < rf) :
    rebalanceSteps rf dt th ts = [0] := by
  have hrf : 0 < rf := lt_of_le_of_lt hth hlt
  have h0 : ⌊th / rf⌋ = 0 := by
    rw [Int.floor_eq_zero_iff]
    exact ⟨div_nonneg hth hrf.le, (div_lt_one hrf).mpr hlt⟩
  rw [rebalanceSteps, h0]
  simp [List.filterMap, hth, Int.floor_zero]

theorem rebalanceSteps_self (dt th : ℝ) (ts : ℕ) (hth : 0 < th)
    (hfl : (⌊th / dt⌋).toNat = ts) :
    rebalanceSteps th dt th ts = [0, ts] := by
  have h1 : ⌊th / th⌋ = 1 := by
    rw [div_self hth.ne.symm, Int.floor_one]
  have hle : ⌊th / dt⌋ ≤ (ts : ℤ) := Int.toNat_le.mp (le_of_eq hfl)
  rw [rebalanceSteps, h1]
  have hrange : List.range ((1 : ℤ).toNat + 1) = [0, 1] := rfl
  rw [hrange]
  norm_num [List.filterMap, hfl, hle, hth.le]

theorem hedgePath_cost_zero_at_zero (sim : HedgingSimulator) (times ratesP : ℕ → ℝ)
    (rebal : List ℕ) : (hedgePath sim times ratesP rebal 0).cost = 0 := rfl

theorem hedgePath_cost_zero_of_not_mem (sim : HedgingSimulator) (times ratesP : ℕ → ℝ)
    (rebal : List ℕ) (t : ℕ) (h : (t + 1) ∉ rebal) :
    (hedgePath sim times ratesP rebal (t + 1)).cost = 0 := by
  rw [hedgePath]
  rw [if_neg h]

theorem simulate_hedgeCosts_none (sim : HedgingSimulator) (model : CIRModel)
    (nPaths : ℕ) (seed : Option ℕ) (g : ℕ → ℕ → ℝ) (rng : ℕ → ℝ) (p t : ℕ) :
    (sim.simulate model nPaths none seed g rng).1.hedgeCosts p t
      = (hedgePath sim (fun u => model.timeHorizon * u / model.timesteps)
          (fun u => (model.simulateRates nPaths seed g rng).1 p u)
          (rebalanceSteps sim.rebalanceFrequency model.dt model.timeHorizon
            model.timesteps) t).cost := by
  simp only [HedgingSimulator.simulate, Option.getD_none]
  rw [if_neg (show ¬ model.timeHorizon ≠ model.timeHorizon from fun h => h rfl)]

/-- The property C6 asserts of the per-path hedge-cost array: exactly one
non-zero entry among steps 0..timesteps. -/
def exactlyOneNonzeroCost (hc : ℕ → ℝ) (timesteps : ℕ) : Prop :=
  ∃ t, t ≤ timesteps ∧ hc t ≠ 0 ∧ ∀ s, s ≤ timesteps → hc s ≠ 0 → s = t

/-- Counterexample to C6: with rebalance_frequency = 2 strictly above the
time horizon 1, the only rebalancing index the source records is step 0,
which the per-step loop (starting at step 1) never matches, so every
hedge-cost entry is zero: there is no non-zero entry at all, not exactly
one. -/
theorem simulate_high_rebalance_not_one_cost :
    ¬ exactlyOneNonzeroCost
      (fun t => (wSim.simulate wModel 1 none none (fun _ _ => 0)
        (fun _ => 0)).1.hedgeCosts 0 t) 2 := by
  have hz : ∀ t, (wSim.simulate wModel 1 none none (fun _ _ => 0)
      (fun _ => 0)).1.hedgeCosts 0 t = 0 := by
    intro t
    rw [simulate_hedgeCosts_none]
    have hr : rebalanceSteps wSim.rebalanceFrequency wModel.dt wModel.timeHorizon
        wModel.timesteps = [0] := by
      apply rebalanceSteps_of_lt
      · norm_num [wModel]
      · norm_num [wModel, wSim]
    rw [hr]
    cases t with
    | zero => exact hedgePath_cost_zero_at_zero _ _ _ _
    | succ u => exact hedgePath_cost_zero_of_not_mem _ _ _ _ u (by simp)
  rintro ⟨t, ht, hne, huniq⟩
  exact hne (hz t)

theorem simulate_hedgeCosts_eq (sim : HedgingSimulator) (model model1 : CIRModel)
    (nPaths : ℕ) (timeHorizonArg : Option ℝ) (seed : Option ℕ)
    (g : ℕ → ℕ → ℝ) (rng : ℕ → ℝ) (th : ℝ) (p t : ℕ)
    (hth : th = timeHorizonArg.getD model.timeHorizon)
    (hm : model1 = if th ≠ model.timeHorizon then
        { model with timeHorizon := th, timesteps := (⌊th / model.dt⌋).toNat }
      else model) :
    (sim.simulate model nPaths timeHorizonArg seed g rng).1.hedgeCosts p t
      = (hedgePath sim (fun u => th * u / model1.timesteps)
          (fun u => (model1.simulateRates nPaths seed g rng).1 p u)
          (rebalanceSteps sim.rebalanceFrequency model1.dt th model1.timesteps)
          t).cost := by
  subst hth
  subst hm
  simp only [HedgingSimulator.simulate]

theorem simulate_timesteps_eq (sim : HedgingSimulator) (model model1 : CIRModel)
    (nPaths : ℕ) (timeHorizonArg : Option ℝ) (seed : Option ℕ)
    (g : ℕ → ℕ → ℝ) (rng : ℕ → ℝ) (th : ℝ)
    (hth : th = timeHorizonArg.getD model.timeHorizon)
    (hm : model1 = if th ≠ model.timeHorizon then
        { model with timeHorizon := th, timesteps := (⌊th / model.dt⌋).toNat }
      else model) :
    (sim.simulate model nPaths timeHorizonArg seed g rng).2.1.timesteps
      = model1.timesteps := by
  subst hth
  subst hm
  simp only [HedgingSimulator.simulate]

theorem hedgeCost_zero_core (sim : HedgingSimulator) (model1 : CIRModel)
    (nPaths : ℕ) (seed : Option ℕ) (g : ℕ → ℕ → ℝ) (rng : ℕ → ℝ)
    (th : ℝ) (p t : ℕ)
    (hth : 0 < th) (hrf : th ≤ sim.rebalanceFrequency)
    (hfl : (⌊th / model1.dt⌋).toNat = model1.timesteps)
    (h : t ≠ model1.timesteps ∨ th < sim.rebalanceFrequency) :
    (hedgePath sim (fun u => th * u / model1.timesteps)
      (fun u => (model1.simulateRates nPaths seed g rng).1 p u)
      (rebalanceSteps sim.rebalanceFrequency model1.dt th model1.timesteps)
      t).cost = 0 := by
  rcases lt_or_eq_of_le hrf with hlt | heqrf
  · rw [rebalanceSteps_of_lt _ _ _ _ hth.le hlt]
    cases t with
    | zero => exact hedgePath_cost_zero_at_zero _ _ _ _
    | succ u => exact hedgePath_cost_zero_of_not_mem _ _ _ _ u (by simp)
  · rcases h with htne | hlt
    · rw [← heqrf, rebalanceSteps_self _ _ _ hth hfl]
      cases t with
      | zero => exact hedgePath_cost_zero_at_zero _ _ _ _
      | succ u =>
        apply hedgePath_cost_zero_of_not_mem
        simp only [List.mem_cons, List.not_mem_nil, or_false]
        push_neg
        exact ⟨Nat.succ_ne_zero u, htne⟩
    · exact absurd hlt (by rw [heqrf]; exact lt_irrefl _)

/-- C6 (amended): for every run of simulate (with the default or any explicit
time_horizon argument) in which rebalance_frequency is at least the effective
time horizon, every hedge-cost entry of every path is zero except possibly
the single entry at the final step index of the (possibly horizon-adapted)
grid, hit only when rebalance_frequency equals the horizon exactly; when
rebalance_frequency strictly exceeds the horizon all entries are zero.  The
array thus has at most one non-zero entry rather than exactly one. -/
theorem simulate_sparse_rebalance_costs (sim : HedgingSimulator) (model : CIRModel)
    (nPaths : ℕ) (timeHorizonArg : Option ℝ) (seed : Option ℕ)
    (g : ℕ → ℕ → ℝ) (rng : ℕ → ℝ)
    (hth : 0 < timeHorizonArg.getD model.timeHorizon)
    (hts : 1 ≤ model.timesteps)
    (hdt : model.dt = model.timeHorizon / model.timesteps)
    (hrf : timeHorizonArg.getD model.timeHorizon ≤ sim.rebalanceFrequency) :
    (∀ p t, t ≠ (sim.simulate model nPaths timeHorizonArg seed g rng).2.1.timesteps →
        (sim.simulate model nPaths timeHorizonArg seed g rng).1.hedgeCosts p t = 0) ∧
    (timeHorizonArg.getD model.timeHorizon < sim.rebalanceFrequency →
      ∀ p t,
        (sim.simulate model nPaths timeHorizonArg seed g rng).1.hedgeCosts p t = 0) := by
  set th := timeHorizonArg.getD model.timeHorizon with hth_def
  set model1 : CIRModel := if th ≠ model.timeHorizon then
      { model with timeHorizon := th, timesteps := (⌊th / model.dt⌋).toNat }
    else model with hm_def
  have hcost := fun p t => simulate_hedgeCosts_eq sim model model1 nPaths timeHorizonArg
    seed g rng th p t hth_def hm_def
  have htse := simulate_timesteps_eq sim model model1 nPaths timeHorizonArg seed g rng
    th hth_def hm_def
  have hdt1 : model1.dt = model.dt := by
    rw [hm_def]
    split_ifs <;> rfl
  have hfl : (⌊th / model1.dt⌋).toNat = model1.timesteps := by
    rw [hdt1, hm_def]
    split_ifs with hchg
    · rfl
    · have hthm : th = model.timeHorizon := not_not.mp hchg
      have hq : th / model.dt = (model.timesteps : ℝ) := by
        rw [hdt, ← hthm, div_div_eq_mul_div, mul_comm, mul_div_assoc,
          div_self hth.ne.symm, mul_one]
      rw [hq, Int.floor_natCast, Int.toNat_natCast]
  constructor
  · intro p t htne
    rw [htse] at htne
    rw [hcost p t]
    exact hedgeCost_zero_core sim model1 nPaths seed g rng th p t hth hrf hfl
      (Or.inl htne)
  · intro hlt p t
    rw [hcost p t]
    exact hedgeCost_zero_core sim model1 nPaths seed g rng th p t hth hrf hfl
      (Or.inr hlt)

/-- Witness for C6 on the concrete model and simulator, with an explicit
time_horizon argument (1/2, different from the model horizon 1). -/
theorem simulate_sparse_rebalance_costs_witness :
    (0 : ℝ) < (some (1 / 2 : ℝ)).getD wModel.timeHorizon ∧
    1 ≤ wModel.timesteps ∧
    wModel.dt = wModel.timeHorizon / wModel.timesteps ∧
    (some (1 / 2 : ℝ)).getD wModel.timeHorizon ≤ wSim.rebalanceFrequency ∧
    (some (1 / 2 : ℝ)).getD wModel.timeHorizon < wSim.rebalanceFrequency ∧
    (wSim.simulate wModel 1 (some (1 / 2)) none (fun _ _ => 0)
      (fun _ => 0)).1.hedgeCosts 0 1 = 0 :=
  ⟨by norm_num, by norm_num [wModel], by norm_num [wModel],
    by norm_num [wSim], by norm_num [wSim],
    (simulate_sparse_rebalance_costs wSim wModel 1 (some (1 / 2)) none (fun _ _ => 0)
      (fun _ => 0) (by norm_num) (by norm_num [wModel]) (by norm_num [wModel])
      (by norm_num [wSim])).2 (by norm_num [wSim]) 0 1⟩

/-- Model of np.mean: sum divided by length. -/
noncomputable def npMean (xs : List ℝ) : ℝ := xs.sum / xs.length

/-- Model of np.std (population standard deviation, ddof = 0). -/
noncomputable def npStd (xs : List ℝ) : ℝ :=
  Real.sqrt ((xs.map (fun x => (x - npMean xs) ^ 2)).sum / xs.length)

/-- Model of np.sort (ascending). -/
noncomputable def npSort (xs : List ℝ) : List ℝ :=
  xs.insertionSort (fun a b => a ≤ b)

/-- Model of np.percentile with its default linear interpolation: index
h = q/100 * (n-1) into the sorted data, interpolating between the
neighbouring order statistics. -/
noncomputable def npPercentile (xs : List ℝ) (q : ℝ) : ℝ :=
  let s := npSort xs
  let h := q / 100 * ((xs.length : ℝ) - 1)
  s.getD (⌊h⌋.toNat) 0 + (h - ⌊h⌋) * (s.getD (⌈h⌉.toNat) 0 - s.getD (⌊h⌋.toNat) 0)

/-- Output record of HedgingSimulator.analyze_results
(src/hedging/simulation.py, lines 181-189). -/
structure AnalysisResult where
  meanPnl : ℝ
  stdPnl : ℝ
  var : ℝ
  expectedShortfall : ℝ
  sharpeRatio : FpVal
  meanHedgeCosts : ℝ

/-- Embedding of HedgingSimulator.analyze_results
(src/hedging/simulation.py, lines 147-191), on the pnl and hedge-cost
matrices of a simulation result (one row per path). -/
noncomputable def analyzeResults (pnl hedgeCosts : List (List ℝ))
    (confidenceLevel : ℝ) : AnalysisResult :=
  let finalPnl := pnl.map (fun row => row.getLastD 0)
  let meanPnl := npMean finalPnl
  let stdPnl := npStd finalPnl
  let alpha := 1 - confidenceLevel
  let varLevel := npPercentile finalPnl (alpha * 100)
  let es := npMean (finalPnl.filter (fun x => decide (x ≤ varLevel)))
  let sharpe := if 0 < stdPnl then FpVal.fin (meanPnl / stdPnl) else FpVal.nan
  let totalHedgeCosts := hedgeCosts.map List.sum
  ⟨meanPnl, stdPnl, varLevel, es, sharpe, npMean totalHedgeCosts⟩

/-- C9: analyze_results returns the mean and population standard deviation of
the final-step P&L across paths, the (1-c)*100 empirical percentile as VaR,
the mean of the final P&L values at or below the VaR as Expected Shortfall,
mean/std as Sharpe ratio when std > 0 and NaN when std = 0, and the mean over
paths of the summed hedge costs. -/
theorem analyzeResults_matches_spec (pnl hedgeCosts : List (List ℝ)) (c : ℝ)
    (hn : 1 ≤ pnl.length) (hc0 : 0 < c) (hc1 : c < 1) :
    (analyzeResults pnl hedgeCosts c).meanPnl
        = (pnl.map (fun row => row.getLastD 0)).sum
            / (pnl.map (fun row => row.getLastD 0)).length ∧
    (analyzeResults pnl hedgeCosts c).stdPnl
        = Real.sqrt (((pnl.map (fun row => row.getLastD 0)).map
            (fun x => (x - npMean (pnl.map (fun row => row.getLastD 0))) ^ 2)).sum
              / (pnl.map (fun row => row.getLastD 0)).length) ∧
    (analyzeResults pnl hedgeCosts c).var
        = npPercentile (pnl.map (fun row => row.getLastD 0)) ((1 - c) * 100) ∧
    (analyzeResults pnl hedgeCosts c).expectedShortfall
        = npMean ((pnl.map (fun row => row.getLastD 0)).filter
            (fun x => decide (x ≤ (analyzeResults pnl hedgeCosts c).var))) ∧
    (0 < (analyzeResults pnl hedgeCosts c).stdPnl →
      (analyzeResults pnl hedgeCosts c).sharpeRatio
        = .fin ((analyzeResults pnl hedgeCosts c).meanPnl
            / (analyzeResults pnl hedgeCosts c).stdPnl)) ∧
    ((analyzeResults pnl hedgeCosts c).stdPnl = 0 →
      (analyzeResults pnl hedgeCosts c).sharpeRatio = .nan) ∧
    (analyzeResults pnl hedgeCosts c).meanHedgeCosts
        = npMean (hedgeCosts.map List.sum) := by
  refine ⟨rfl, rfl, rfl, rfl, ?_, ?_, rfl⟩
  · intro h
    simp only [analyzeResults] at h ⊢
    rw [if_pos h]
  · intro h
    simp only [analyzeResults] at h ⊢
    rw [if_neg (not_lt.mpr h.le)]

/-- Witness for C9 on a one-path result. -/
theorem analyzeResults_matches_spec_witness :
    1 ≤ ([[ (1 : ℝ) ]]).length ∧ (0 : ℝ) < 95 / 100 ∧ (95 / 100 : ℝ) < 1 ∧
    (analyzeResults [[ (1 : ℝ) ]] [[0]] (95 / 100)).meanHedgeCosts
      = npMean (([[ (0 : ℝ) ]]).map List.sum) :=
  ⟨by norm_num, by norm_num, by norm_num,
    (analyzeResults_matches_spec [[ (1 : ℝ) ]] [[0]] (95 / 100) (by norm_num) (by norm_num)
      (by norm_num)).2.2.2.2.2.2⟩

theorem FpVal.neg_fin (a : ℝ) : FpVal.neg (.fin a) = .fin (-a) := rfl

/-- Fixing-period start for the idx-th payment date
(src/models/derivatives/option_pricing.py, lines 103-107): the cap start
date for the first period, the previous payment date afterwards. -/
noncomputable def capFixingStart (paymentDates : List ℝ) (startDate : ℝ) (idx : ℕ) : ℝ :=
  if idx = 0 then startDate else paymentDates.getD (idx - 1) 0

/-- Embedding of CapFloorPricer.price_cap
(src/models/derivatives/option_pricing.py, lines 77-136). -/
noncomputable def priceCap (rateModel : RateModelCap) (valuationDate startDate endDate
    strike paymentFrequency notional : ℝ) (volatility : Option ℝ) : FpVal :=
  let currentRate := rateModel.r0
  let paymentDates := npArange (startDate + paymentFrequency) (endDate + 1e-10)
    paymentFrequency
  let vol := volatility.getD 0.2
  paymentDates.enum.foldl (fun capPrice pair =>
    let fixingStart := capFixingStart paymentDates startDate pair.1
    let forwardRate := rateModel.forwardRate valuationDate fixingStart pair.2 currentRate
    let discountFactor := rateModel.zeroCouponBondPrice valuationDate pair.2 currentRate
    let timeToFixing := max 0 (fixingStart - valuationDate)
    FpVal.add capPrice (blackPriceCaplet forwardRate strike timeToFixing vol
      discountFactor notional paymentFrequency)) (.fin 0)

/-- Embedding of CapFloorPricer.price_floor
(src/models/derivatives/option_pricing.py, lines 138-197). -/
noncomputable def priceFloor (rateModel : RateModelCap) (valuationDate startDate endDate
    strike paymentFrequency notional : ℝ) (volatility : Option ℝ) : FpVal :=
  let currentRate := rateModel.r0
  let paymentDates := npArange (startDate + paymentFrequency) (endDate + 1e-10)
    paymentFrequency
  let vol := volatility.getD 0.2
  paymentDates.enum.foldl (fun floorPrice pair =>
    let fixingStart := capFixingStart paymentDates startDate pair.1
    let forwardRate := rateModel.forwardRate valuationDate fixingStart pair.2 currentRate
    let discountFactor := rateModel.zeroCouponBondPrice valuationDate pair.2 currentRate
    let timeToFixing := max 0 (fixingStart - valuationDate)
    FpVal.add floorPrice (blackPriceFloorlet forwardRate strike timeToFixing vol
      discountFactor notional paymentFrequency)) (.fin 0)

/-- Finite real value of a caplet under valid Black inputs. -/
noncomputable def capletReal (F K tau vol DF N dT : ℝ) : ℝ :=
  if tau ≤ 0 then max 0 (F - K) * DF * N * dT
  else
    let d1 := (Real.log (F / K) + vol ^ 2 / 2 * tau) / (vol * Real.sqrt tau)
    DF * N * dT * (F * normCdf d1 + -(K * normCdf (d1 + -(vol * Real.sqrt tau))))

/-- Finite real value of a floorlet under valid Black inputs. -/
noncomputable def floorletReal (F K tau vol DF N dT : ℝ) : ℝ :=
  if tau ≤ 0 then max 0 (K - F) * DF * N * dT
  else
    let d1 := (Real.log (F / K) + vol ^ 2 / 2 * tau) / (vol * Real.sqrt tau)
    DF * N * dT * (K * normCdf (-(d1 + -(vol * Real.sqrt tau))) + -(F * normCdf (-d1)))

theorem blackPriceCaplet_fin_val (F K tau vol DF N dT : ℝ)
    (hF : 0 < F) (hK : 0 < K) (hvol : 0 < vol) :
    blackPriceCaplet F K tau vol DF N dT = .fin (capletReal F K tau vol DF N dT) := by
  by_cases htau : tau ≤ 0
  · simp only [blackPriceCaplet, capletReal, if_pos htau]
  · have htau2 : 0 < tau := not_le.mp htau
    have hs : vol * Real.sqrt tau ≠ 0 := (mul_pos hvol (Real.sqrt_pos.mpr htau2)).ne.symm
    have hFK : 0 < F / K := div_pos hF hK
    simp only [blackPriceCaplet, capletReal, if_neg htau]
    rw [FpVal.div_fin_of_ne _ _ hK.ne.symm, FpVal.log_fin_of_pos _ hFK, FpVal.add_fin,
      FpVal.div_fin_of_ne _ _ hs, FpVal.sub_fin, FpVal.cdf_fin, FpVal.cdf_fin,
      FpVal.mul_fin, FpVal.mul_fin, FpVal.sub_fin, FpVal.mul_fin]

theorem blackPriceFloorlet_fin_val (F K tau vol DF N dT : ℝ)
    (hF : 0 < F) (hK : 0 < K) (hvol : 0 < vol) :
    blackPriceFloorlet F K tau vol DF N dT = .fin (floorletReal F K tau vol DF N dT) := by
  by_cases htau : tau ≤ 0
  · simp only [blackPriceFloorlet, floorletReal, if_pos htau]
  · have htau2 : 0 < tau := not_le.mp htau
    have hs : vol * Real.sqrt tau ≠ 0 := (mul_pos hvol (Real.sqrt_pos.mpr htau2)).ne.symm
    have hFK : 0 < F / K := div_pos hF hK
    simp only [blackPriceFloorlet, floorletReal, if_neg htau]
    rw [FpVal.div_fin_of_ne _ _ hK.ne.symm, FpVal.log_fin_of_pos _ hFK, FpVal.add_fin,
      FpVal.div_fin_of_ne _ _ hs, FpVal.sub_fin, FpVal.neg_fin, FpVal.neg_fin,
      FpVal.cdf_fin, FpVal.cdf_fin, FpVal.mul_fin, FpVal.mul_fin, FpVal.sub_fin,
      FpVal.mul_fin]

theorem capletReal_sub_floorletReal (F K tau vol DF N dT : ℝ) :
    capletReal F K tau vol DF N dT - floorletReal F K tau vol DF N dT
      = DF * N * dT * (F - K) := by
  by_cases htau : tau ≤ 0
  · simp only [capletReal, floorletReal, if_pos htau]
    rcases le_total F K with h | h
    · rw [max_eq_left (sub_nonpos.mpr h), max_eq_right (sub_nonneg.mpr h)]
      ring
    · rw [max_eq_right (sub_nonneg.mpr h), max_eq_left (sub_nonpos.mpr h)]
      ring
  · simp only [capletReal, floorletReal, if_neg htau]
    rw [normCdf_neg, normCdf_neg]
    ring

theorem foldl_fpadd_fin {α : Type} (l : List α) (f : α → FpVal) (v : α → ℝ)
    (hf : ∀ x ∈ l, f x = .fin (v x)) :
    ∀ a : ℝ, l.foldl (fun acc x => FpVal.add acc (f x)) (.fin a)
      = .fin (a + (l.map v).sum) := by
  induction l with
  | nil => intro a; simp
  | cons x xs ih =>
    intro a
    simp only [List.foldl_cons, List.map_cons, List.sum_cons]
    rw [hf x (List.mem_cons_self x xs), FpVal.add_fin,
      ih (fun y hy => hf y (List.mem_cons_of_mem x hy)) (a + v x)]
    congr 1
    ring

theorem listmap_sum_sub {α : Type} (l : List α) (v u : α → ℝ) :
    (l.map v).sum - (l.map u).sum = (l.map (fun x => v x - u x)).sum := by
  induction l with
  | nil => simp
  | cons x xs ih =>
    simp only [List.map_cons, List.sum_cons]
    rw [← ih]
    ring

/-- Written from the specification text of C7: the discounted value of the
forward-rate-minus-strike cash flows over the cap schedule. -/
noncomputable def capFloorParityValue (rateModel : RateModelCap)
    (valuationDate startDate endDate strike paymentFrequency notional : ℝ) : ℝ :=
  ((npArange (startDate + paymentFrequency) (endDate + 1e-10) paymentFrequency).enum.map
    (fun pair =>
      rateModel.zeroCouponBondPrice valuationDate pair.2 rateModel.r0 * notional
        * paymentFrequency
        * (rateModel.forwardRate valuationDate
            (capFixingStart (npArange (startDate + paymentFrequency) (endDate + 1e-10)
              paymentFrequency) startDate pair.1) pair.2 rateModel.r0 - strike))).sum

/-- C7: at equal strike and schedule, price_cap minus price_floor equals the
discounted value of the forward-rate-minus-strike cash flows, exactly, for
every schedule whose per-period forward rates are positive, every positive
strike and every positive (explicit or defaulted) volatility. -/
theorem priceCap_sub_priceFloor_parity (rateModel : RateModelCap)
    (valuationDate startDate endDate strike paymentFrequency notional : ℝ)
    (volatility : Option ℝ)
    (hK : 0 < strike) (hvol : 0 < volatility.getD 0.2)
    (hF : ∀ pair ∈ (npArange (startDate + paymentFrequency) (endDate + 1e-10)
        paymentFrequency).enum,
      0 < rateModel.forwardRate valuationDate
          (capFixingStart (npArange (startDate + paymentFrequency) (endDate + 1e-10)
            paymentFrequency) startDate pair.1) pair.2 rateModel.r0) :
    FpVal.sub
      (priceCap rateModel valuationDate startDate endDate strike paymentFrequency
        notional volatility)
      (priceFloor rateModel valuationDate startDate endDate strike paymentFrequency
        notional volatility)
      = .fin (capFloorParityValue rateModel valuationDate startDate endDate strike
          paymentFrequency notional) := by
  have hcap : priceCap rateModel valuationDate startDate endDate strike paymentFrequency
      notional volatility
      = .fin (0 + (((npArange (startDate + paymentFrequency) (endDate + 1e-10)
          paymentFrequency).enum.map (fun pair =>
            capletReal
              (rateModel.forwardRate valuationDate
                (capFixingStart (npArange (startDate + paymentFrequency) (endDate + 1e-10)
                  paymentFrequency) startDate pair.1) pair.2 rateModel.r0)
              strike
              (max 0 (capFixingStart (npArange (startDate + paymentFrequency)
                (endDate + 1e-10) paymentFrequency) startDate pair.1 - valuationDate))
              (volatility.getD 0.2)
              (rateModel.zeroCouponBondPrice valuationDate pair.2 rateModel.r0)
              notional paymentFrequency)).sum)) :=
    foldl_fpadd_fin _ _ _
      (fun pair hp => blackPriceCaplet_fin_val _ _ _ _ _ _ _ (hF pair hp) hK hvol) 0
  have hfloor : priceFloor rateModel valuationDate startDate endDate strike paymentFrequency
      notional volatility
      = .fin (0 + (((npArange (startDate + paymentFrequency) (endDate + 1e-10)
          paymentFrequency).enum.map (fun pair =>
            floorletReal
              (rateModel.forwardRate valuationDate
                (capFixingStart (npArange (startDate + paymentFrequency) (endDate + 1e-10)
                  paymentFrequency) startDate pair.1) pair.2 rateModel.r0)
              strike
              (max 0 (capFixingStart (npArange (startDate + paymentFrequency)
                (endDate + 1e-10) paymentFrequency) startDate pair.1 - valuationDate))
              (volatility.getD 0.2)
              (rateModel.zeroCouponBondPrice valuationDate pair.2 rateModel.r0)
              notional paymentFrequency)).sum)) :=
    foldl_fpadd_fin _ _ _
      (fun pair hp => blackPriceFloorlet_fin_val _ _ _ _ _ _ _ (hF pair hp) hK hvol) 0
  rw [hcap, hfloor, FpVal.sub_fin]
  congr 1
  rw [zero_add, zero_add, ← sub_eq_add_neg, listmap_sum_sub, capFloorParityValue]
  apply congrArg List.sum
  apply List.map_congr_left
  intro pair hp
  rw [capletReal_sub_floorletReal]

/-- Witness for C7 on the constant-capability model. -/
theorem priceCap_sub_priceFloor_parity_witness :
    (0 : ℝ) < 3 / 100 ∧ (0 : ℝ) < (none : Option ℝ).getD 0.2 ∧
    FpVal.sub (priceCap constRateModel 0 0 1 (3 / 100) (1 / 2) 1 none)
        (priceFloor constRateModel 0 0 1 (3 / 100) (1 / 2) 1 none)
      = .fin (capFloorParityValue constRateModel 0 0 1 (3 / 100) (1 / 2) 1) :=
  ⟨by norm_num, by norm_num,
    priceCap_sub_priceFloor_parity constRateModel 0 0 1 (3 / 100) (1 / 2) 1 none
      (by norm_num) (by norm_num)
      (fun pair hp => by norm_num [constRateModel])⟩
